import Mathlib

/-!
Verification of the word-guess game core logic (src/app.py).

The Python source calls into external libraries: the WordNet lexical graph
(nltk), the difflib sequence matcher, the Brown-corpus frequency counter,
the random module, and the requests HTTP client.  The embedding models the
external read-only data (WordNet senses, word frequencies, random draws,
HTTP responses) as parameters carrying the properties those libraries
guarantee, and translates every function of app.py itself into a Lean
definition over those parameters.  Real arithmetic is modeled with the
rationals; Python int() is truncation toward zero.
-/

set_option maxRecDepth 40000

namespace WordGuess

/-- Python str.lower(), one character at a time. -/
def pyLower (s : String) : String := ⟨s.data.map Char.toLower⟩

/-- Python int() applied to a real value: truncation toward zero. -/
def pyInt (q : ℚ) : ℤ := if 0 ≤ q then ⌊q⌋ else -⌊-q⌋

/-- Helper for pyWords: groups of consecutive non-whitespace characters. -/
def wordsAux : List Char → List Char → List (List Char)
  | [], acc => if acc = [] then [] else [acc.reverse]
  | c :: cs, acc =>
    if c.isWhitespace then
      (if acc = [] then wordsAux cs [] else acc.reverse :: wordsAux cs [])
    else wordsAux cs (c :: acc)

/-- Python str.split() with no argument: split on whitespace runs, no empties. -/
def pyWords (s : String) : List String := (wordsAux s.data []).map String.mk

/-- Python str.isalpha(): nonempty and every character alphabetic. -/
def pyIsAlpha (s : String) : Bool := !s.isEmpty && s.data.all Char.isAlpha

/-- Python str.capitalize(): first character uppercased, the rest lowercased. -/
def pyCapitalize (s : String) : String :=
  match s.data with
  | [] => s
  | c :: cs => ⟨c.toUpper :: cs.map Char.toLower⟩

/-- Bool test that pat is a leading segment of l. -/
def leadsWith : List Char → List Char → Bool
  | [], _ => true
  | _ :: _, [] => false
  | p :: ps, c :: cs => p == c && leadsWith ps cs

/-- Fuel-driven body of pyReplace: left-to-right non-overlapping replacement. -/
def replAux : Nat → List Char → List Char → List Char → List Char
  | 0, l, _, _ => l
  | _ + 1, [], _, _ => []
  | fuel + 1, c :: cs, pat, rep =>
    if leadsWith pat (c :: cs) then rep ++ replAux fuel ((c :: cs).drop pat.length) pat rep
    else c :: replAux fuel cs pat rep

/-- Python str.replace(old, new): all non-overlapping occurrences, left to right.
With an empty pattern Python inserts new around every character. -/
def pyReplace (s old new : String) : String :=
  if old.data = [] then ⟨new.data ++ s.data.flatMap (fun c => c :: new.data)⟩
  else ⟨replAux (s.data.length + 1) s.data old.data new.data⟩

/-- Python name.split(".")[0] as used on domain synset names. -/
def headDot (s : String) : String := ⟨s.data.takeWhile (fun c => c ≠ '.')⟩

/-! ### difflib.SequenceMatcher, without junk (words are far below the
autojunk threshold).  find_longest_match returns, among the maximal common
substrings of the two windows, the one whose end position is reached first
when scanning positions of a ascending and positions of b ascending; its
matching blocks are obtained by recursing on both sides of that block, and
ratio() is 2*M/T for M the total matched size and T the total length. -/

/-- Length of the common leading segment of two character lists. -/
def cpl : List Char → List Char → Nat
  | a :: as, b :: bs => if a = b then cpl as bs + 1 else 0
  | _, _ => 0

/-- All candidate blocks (i, j, size of common leading segment of the drops). -/
def flmCands (a b : List Char) : List (Nat × Nat × Nat) :=
  (List.range a.length).flatMap fun i =>
    (List.range b.length).map fun j => (i, j, cpl (a.drop i) (b.drop j))

/-- The longest matching block, first maximal candidate in scan order,
as difflib find_longest_match selects it. -/
def flmBest (a b : List Char) : Nat × Nat × Nat :=
  (flmCands a b).foldl (fun best c => if best.2.2 < c.2.2 then c else best) (0, 0, 0)

/-- Total size of the difflib matching blocks (fuel-driven recursion). -/
def matchSum : Nat → List Char → List Char → Nat
  | 0, _, _ => 0
  | fuel + 1, a, b =>
    let best := flmBest a b
    if best.2.2 = 0 then 0
    else
      best.2.2 + matchSum fuel (a.take best.1) (b.take best.2.1) +
        matchSum fuel (a.drop (best.1 + best.2.2)) (b.drop (best.2.1 + best.2.2))

/-- difflib SequenceMatcher(None, a, b).ratio() = 2*M/T, and 1 when T = 0. -/
def seqRatioQ (a b : String) : ℚ :=
  if a.data.length + b.data.length = 0 then 1
  else (2 * (matchSum (a.data.length + b.data.length) a.data b.data : ℚ)) /
    ((a.data.length + b.data.length : ℕ) : ℚ)

/-! ### The lexical graph (WordNet) as read-only external data.
A synset is modeled by exactly the attributes app.py reads: lemma names,
hypernym paths (each path element reduced to its lemma names, which is all
the code consults), the definition gloss tokenized by whitespace, the raw
example sentences, and the names of the topic-domain synsets. -/

structure Synset where
  lemmas : List String
  hypernymPaths : List (List (List String))
  definition : List String
  examples : List String
  topicDomains : List String
  deriving DecidableEq

/-- The read-only lexical database: senses of a word plus the two similarity
queries the scorer makes.  path_similarity and wup_similarity return None or
a value in [0, 1]; those bounds are the only facts about them the code
depends on. -/
structure Lexicon where
  synsets : String → List Synset
  pathSim : Synset → Synset → Option ℚ
  wupSim : Synset → Synset → Option ℚ
  pathSim_bounds : ∀ s t q, pathSim s t = some q → 0 ≤ q ∧ q ≤ 1
  wupSim_bounds : ∀ s t q, wupSim s t = some q → 0 ≤ q ∧ q ≤ 1

/-- Set of lowercased tokens of the definition gloss
(Python set(definition().lower().split())). -/
def defTokens (s : Synset) : Finset String := (s.definition.map pyLower).toFinset

/-- Set of lowercased tokens of all example sentences
(Python set(" ".join(examples()).lower().split())). -/
def exTokens (s : Synset) : Finset String :=
  (s.examples.flatMap (fun e => pyWords (pyLower e))).toFinset

/-- len(intersection) / max(len(union), 1), the token-overlap measure of app.py. -/
def jac (A B : Finset String) : ℚ :=
  ((A ∩ B).card : ℚ) / (((max (A ∪ B).card 1 : ℕ)) : ℚ)

/-- usage_sim of app.py line 77: token overlap of examples, or 0 when either
side has no example tokens. -/
def usageSim (g t : Synset) : ℚ :=
  if exTokens g ≠ ∅ ∧ exTokens t ≠ ∅ then jac (exTokens g) (exTokens t) else 0

/-- Lines 61-87 of app.py: the blended similarity on the primary synsets,
weights 0.3 path + 0.3 Wu-Palmer + 0.2 definition overlap + 0.2 usage
overlap, inverted and scaled; path/wup of None count as 0 (the "or 0"). -/
def graphScore (L : Lexicon) (g t : Synset) : ℤ :=
  pyInt ((1 - ((L.pathSim g t).getD 0 * (3 / 10) + (L.wupSim g t).getD 0 * (3 / 10) +
    jac (defTokens g) (defTokens t) * (1 / 5) + usageSim g t * (1 / 5))) * 1000)

/-- calculate_enhanced_similarity of app.py lines 49-87.  When either word
has no synsets the string-similarity fallback of line 59 applies; otherwise
the blended score on the two primary synsets. -/
def calculate_enhanced_similarity (L : Lexicon) (guess target : String) : ℤ :=
  match L.synsets (pyLower guess), L.synsets (pyLower target) with
  | guess_synset :: _, target_synset :: _ => graphScore L guess_synset target_synset
  | _, _ => 1000 - pyInt (seqRatioQ (pyLower guess) (pyLower target) * 1000)

/-- Legacy wrapper, app.py lines 45-47. -/
def calculate_similarity (L : Lexicon) (guess target : String) : ℤ :=
  calculate_enhanced_similarity L guess target

/-- get_word_complexity of app.py lines 24-32, over the Brown-corpus
frequency table word_freq. -/
def get_word_complexity (word_freq : String → ℕ) (word : String) : ℚ :=
  let freq := word_freq (pyLower word)
  let length_factor : ℚ := (word.length : ℚ) / 10
  let freq_factor : ℚ := if freq = 0 then 0 else min 1 ((freq : ℚ) / 1000)
  1 - ((freq_factor + (1 - length_factor)) / 2)

/-- The random module as used by app.py: sample without replacement, choice,
and shuffle, with the membership and permutation guarantees random gives. -/
structure Rand where
  sample : List String → Nat → List String
  choice : List String → String
  shuffle : List (String × String) → List (String × String)
  sample_mem : ∀ l n x, x ∈ sample l n → x ∈ l
  choice_mem : ∀ l, l ≠ [] → choice l ∈ l
  shuffle_perm : ∀ l, List.Perm (shuffle l) l

/-- The stopword set of app.py line 124. -/
def stopWords : List String := ["the", "and", "or", "a", "an", "in", "of", "to", "for"]

/-- Python l[-3:]. -/
def last3 {α : Type} (l : List α) : List α := l.drop (l.length - 3)

/-- Synonym hints, app.py lines 103-110: lemmas of the primary synset other
than the word itself, longer than 2, of complexity strictly below 0.7. -/
def synHints (word_freq : String → ℕ) (word : String) (ps : Synset) :
    List (String × String) :=
  ps.lemmas.filterMap fun synonym =>
    if synonym ≠ word ∧ 2 < synonym.length ∧
        get_word_complexity word_freq synonym < 7 / 10 then
      some ("synonym", "Similar word: " ++ synonym)
    else none

/-- Category hints, app.py lines 112-118: lemma names in the last 3 levels of
each hypernym path, other than the word itself and longer than 2. -/
def catHints (word : String) (ps : Synset) : List (String × String) :=
  ps.hypernymPaths.flatMap fun path =>
    (last3 path).flatMap fun hypernym =>
      hypernym.filterMap fun nm =>
        if nm ≠ word ∧ 2 < nm.length then some ("category", "Type of: " ++ nm)
        else none

/-- Definition hint, app.py lines 120-127: up to 3 sampled keywords of the
gloss, when it has more than 3 tokens and some keyword survives the filter. -/
def defHints (R : Rand) (ps : Synset) : List (String × String) :=
  if 3 < ps.definition.length then
    let key_words := ps.definition.filter fun w =>
      decide (3 < w.length) && !(stopWords.contains (pyLower w))
    if key_words ≠ [] then
      [("definition", "Definition contains: " ++
        String.intercalate " " (R.sample key_words (min 3 key_words.length)))]
    else []
  else []

/-- Usage hint, app.py lines 129-134: one random example with the word and
its capitalization masked. -/
def usageHints (R : Rand) (word : String) (ps : Synset) : List (String × String) :=
  match ps.examples with
  | [] => []
  | _ :: _ =>
    [("usage", "Used in: " ++
      pyReplace (pyReplace (R.choice ps.examples) word "___") (pyCapitalize word) "___")]

/-- Domain hints, app.py lines 136-139. -/
def domHints (ps : Synset) : List (String × String) :=
  ps.topicDomains.map fun d => ("domain", "Related to: " ++ headDot d)

/-- The hint list before deduplication, in the append order of app.py. -/
def rawHints (L : Lexicon) (R : Rand) (word_freq : String → ℕ) (word : String) :
    List (String × String) :=
  match L.synsets word with
  | [] => []
  | ps :: _ =>
    synHints word_freq word ps ++ catHints word ps ++ defHints R ps ++
      usageHints R word ps ++ domHints ps

/-- Deduplication by rendered text, first occurrence kept
(app.py lines 141-147). -/
def dedupAux : List String → List (String × String) → List (String × String)
  | _, [] => []
  | seen, h :: t =>
    if h.2 ∈ seen then dedupAux seen t else h :: dedupAux (h.2 :: seen) t

/-- get_enhanced_semantic_hints of app.py lines 93-151: typed hints from the
primary synset, deduplicated by text and shuffled. -/
def get_enhanced_semantic_hints (L : Lexicon) (R : Rand)
    (word_freq : String → ℕ) (word : String) : List (String × String) :=
  R.shuffle (dedupAux [] (rawHints L R word_freq word))

/-- Legacy wrapper, app.py lines 89-91. -/
def get_semantic_hints (L : Lexicon) (R : Rand) (word_freq : String → ℕ)
    (word : String) : List (String × String) :=
  get_enhanced_semantic_hints L R word_freq word

/-- fetch_random_noun of app.py lines 34-43.  The argument is the outcome of
requests.get: .error when the request raises (unreachable source), .ok with
status code and the word fields otherwise.  app.py has no try/except, so a
raised exception propagates, which the .error branch records. -/
def fetch_random_noun (R : Rand) (resp : Except Unit (Nat × List String)) :
    Except Unit (Option String) :=
  match resp with
  | .error e => .error e
  | .ok (status, words) =>
    if status = 200 then
      let single_word_nouns := words.filter pyIsAlpha
      if single_word_nouns ≠ [] then .ok (some (R.choice single_word_nouns))
      else .ok none
    else .ok none

/-- The feedback tiers of app.py lines 200-210. -/
inductive Tier where
  | exactMatch
  | almostThere
  | veryClose
  | warmer
  | notClose
  deriving DecidableEq

/-- The elif chain of app.py lines 200-210 as a function of the score. -/
def tierOf (d : ℤ) : Tier :=
  if d = 0 then .exactMatch
  else if d ≤ 20 then .almostThere
  else if d ≤ 200 then .veryClose
  else if d ≤ 500 then .warmer
  else .notClose

/-- The per-session state of app.py lines 153-175: target word, game-over
flag, previous guesses keyed by lowercased text in insertion order, hint
list, hint cursor. -/
structure GameState where
  target : String
  gameOver : Bool
  previousGuesses : List (String × ℤ)
  hints : List (String × String)
  hintCount : Nat
  deriving DecidableEq

/-- Guess processing, app.py lines 191-202: duplicates (by lowercased key)
are rejected before scoring; otherwise, if the game is not over, the score
is computed, stored under the lowercased guess, and a score of 0 ends the
game. -/
def submitGuess (L : Lexicon) (st : GameState) (guess : String) : GameState :=
  if (st.previousGuesses.map Prod.fst).contains (pyLower guess) then st
  else if st.gameOver then st
  else
    let similarity_score := calculate_enhanced_similarity L guess st.target
    { st with
      previousGuesses := st.previousGuesses ++ [(pyLower guess, similarity_score)],
      gameOver := decide (similarity_score = 0) }

/-! ### Concrete instances used to evaluate the model on specific inputs. -/

/-- A deterministic instance of the random interface: sample takes the first
n elements, choice the head, shuffle is the identity permutation. -/
def idR : Rand where
  sample := fun l n => l.take n
  choice := fun l => l.headD ""
  shuffle := fun l => l
  sample_mem := fun l n x hx => List.take_subset n l hx
  choice_mem := fun l hl => by
    cases l with
    | nil => exact absurd rfl hl
    | cons a t => exact List.mem_cons_self a t
  shuffle_perm := fun l => List.Perm.refl l

/-- Similarity queries of a lexicon in which distinct senses are unrelated:
each query yields 1 on a sense and itself (as WordNet does) and None across
distinct senses. -/
def discreteSims : Synset → Synset → Option ℚ :=
  fun s t => if s = t then some 1 else none

lemma discreteSims_bounds : ∀ s t q, discreteSims s t = some q → 0 ≤ q ∧ q ≤ 1 := by
  intro s t q h
  unfold discreteSims at h
  split at h
  · cases h; norm_num
  · cases h

/-- A lexicon in which no word has a sense. -/
def emptyLex : Lexicon where
  synsets := fun _ => []
  pathSim := discreteSims
  wupSim := discreteSims
  pathSim_bounds := discreteSims_bounds
  wupSim_bounds := discreteSims_bounds

/-- A sense with no usage examples, as WordNet top-level nouns have
(for instance entity.n.01 carries no example sentences). -/
def Sent : Synset where
  lemmas := ["entity"]
  hypernymPaths := [[["entity"]]]
  definition := ["that", "which", "is", "perceived"]
  examples := []
  topicDomains := []

/-- A lexicon holding only the word entity, whose primary sense has no
usage examples. -/
def entLex : Lexicon where
  synsets := fun w => if w = "entity" then [Sent] else []
  pathSim := discreteSims
  wupSim := discreteSims
  pathSim_bounds := discreteSims_bounds
  wupSim_bounds := discreteSims_bounds

/-- A richly populated sense of the word dog. -/
def Sdog : Synset where
  lemmas := ["dog", "domestic_dog", "canis_familiaris"]
  hypernymPaths := [[["entity"], ["animal", "beast"], ["canine"], ["dog", "domestic_dog"]]]
  definition := ["a", "domesticated", "carnivorous", "mammal"]
  examples := ["the dog barked"]
  topicDomains := ["zoology.n.01"]

/-- A sense of the word cat. -/
def Scat : Synset where
  lemmas := ["cat", "true_cat"]
  hypernymPaths := [[["entity"], ["animal", "beast"], ["feline"]]]
  definition := ["a", "feline", "mammal"]
  examples := ["the cat slept"]
  topicDomains := []

/-- A lexicon holding the words dog and cat. -/
def dogLex : Lexicon where
  synsets := fun w => if w = "dog" then [Sdog] else if w = "cat" then [Scat] else []
  pathSim := discreteSims
  wupSim := discreteSims
  pathSim_bounds := discreteSims_bounds
  wupSim_bounds := discreteSims_bounds

/-- A frequency table on which every word is common (Brown count 1000). -/
def freqK : String → ℕ := fun _ => 1000

/-- A fresh game state on the target entity. -/
def gs0 : GameState where
  target := "entity"
  gameOver := false
  previousGuesses := []
  hints := []
  hintCount := 0

/-- A game state that has already recorded the guess dog. -/
def st1 : GameState where
  target := "entity"
  gameOver := false
  previousGuesses := [("dog", 500)]
  hints := []
  hintCount := 0

/-! ### Bounds for the sequence-matcher model. -/

lemma cpl_le_left : ∀ (a b : List Char), cpl a b ≤ a.length := by
  intro a
  induction a with
  | nil => intro b; cases b <;> simp [cpl]
  | cons x xs ih =>
    intro b
    cases b with
    | nil => simp [cpl]
    | cons y ys =>
      by_cases hxy : x = y
      · simpa [cpl, hxy] using ih ys
      · simp [cpl, hxy]

lemma cpl_le_right : ∀ (a b : List Char), cpl a b ≤ b.length := by
  intro a
  induction a with
  | nil => intro b; cases b <;> simp [cpl]
  | cons x xs ih =>
    intro b
    cases b with
    | nil => simp [cpl]
    | cons y ys =>
      by_cases hxy : x = y
      · simpa [cpl, hxy] using ih ys
      · simp [cpl, hxy]

lemma foldl_pick (l : List (Nat × Nat × Nat)) (init : Nat × Nat × Nat) :
    l.foldl (fun best c => if best.2.2 < c.2.2 then c else best) init = init ∨
    l.foldl (fun best c => if best.2.2 < c.2.2 then c else best) init ∈ l := by
  induction l generalizing init with
  | nil => left; rfl
  | cons h t ih =>
    rw [List.foldl_cons]
    rcases ih (if init.2.2 < h.2.2 then h else init) with he | hm
    · rw [he]
      split
      · right; exact List.mem_cons_self _ _
      · left; rfl
    · right; exact List.mem_cons_of_mem _ hm

lemma flmBest_cases (a b : List Char) :
    flmBest a b = (0, 0, 0) ∨ flmBest a b ∈ flmCands a b :=
  foldl_pick _ _

lemma flmCands_mem {a b : List Char} {c : Nat × Nat × Nat} (h : c ∈ flmCands a b) :
    c.1 < a.length ∧ c.2.1 < b.length ∧ c.2.2 = cpl (a.drop c.1) (b.drop c.2.1) := by
  simp only [flmCands, List.mem_flatMap, List.mem_map, List.mem_range] at h
  obtain ⟨i, hi, j, hj, rfl⟩ := h
  exact ⟨hi, hj, rfl⟩

lemma flmBest_spec (a b : List Char) :
    (flmBest a b).1 + (flmBest a b).2.2 ≤ a.length ∧
    (flmBest a b).2.1 + (flmBest a b).2.2 ≤ b.length := by
  rcases flmBest_cases a b with h | h
  · rw [h]; simp
  · obtain ⟨h1, h2, h3⟩ := flmCands_mem h
    have la := cpl_le_left (a.drop (flmBest a b).1) (b.drop (flmBest a b).2.1)
    have lb := cpl_le_right (a.drop (flmBest a b).1) (b.drop (flmBest a b).2.1)
    rw [List.length_drop] at la lb
    omega

lemma matchSum_le : ∀ (fuel : Nat) (a b : List Char),
    matchSum fuel a b ≤ min a.length b.length := by
  intro fuel
  induction fuel with
  | zero => intro a b; simp [matchSum]
  | succ n ih =>
    intro a b
    simp only [matchSum]
    split
    · simp
    · obtain ⟨ha, hb⟩ := flmBest_spec a b
      have t1 := ih (a.take (flmBest a b).1) (b.take (flmBest a b).2.1)
      have t2 := ih (a.drop ((flmBest a b).1 + (flmBest a b).2.2))
        (b.drop ((flmBest a b).2.1 + (flmBest a b).2.2))
      simp only [List.length_take, List.length_drop] at t1 t2
      omega

lemma seqRatioQ_nonneg (a b : String) : 0 ≤ seqRatioQ a b := by
  unfold seqRatioQ
  split
  · norm_num
  · positivity

lemma seqRatioQ_le_one (a b : String) : seqRatioQ a b ≤ 1 := by
  unfold seqRatioQ
  split
  · norm_num
  · rename_i h
    have hpos : 0 < a.data.length + b.data.length := Nat.pos_of_ne_zero h
    rw [div_le_one (by exact_mod_cast hpos)]
    have hm := matchSum_le (a.data.length + b.data.length) a.data b.data
    have h2 : 2 * matchSum (a.data.length + b.data.length) a.data b.data ≤
        a.data.length + b.data.length := by omega
    exact_mod_cast h2

/-! ### Bounds for pyInt and the token-overlap measure. -/

lemma pyInt_eq_floor {q : ℚ} (h : 0 ≤ q) : pyInt q = ⌊q⌋ := if_pos h

lemma pyInt_range {q : ℚ} (h0 : 0 ≤ q) (h1 : q ≤ 1000) :
    0 ≤ pyInt q ∧ pyInt q ≤ 1000 := by
  rw [pyInt_eq_floor h0]
  refine ⟨Int.floor_nonneg.mpr h0, ?_⟩
  have h2 := Int.floor_le_floor h1
  have h3 : ⌊(1000 : ℚ)⌋ = (1000 : ℤ) := by norm_num
  omega

lemma jac_nonneg (A B : Finset String) : 0 ≤ jac A B := by
  unfold jac
  positivity

lemma jac_le_one (A B : Finset String) : jac A B ≤ 1 := by
  unfold jac
  have hden : (0 : ℚ) < ((max (A ∪ B).card 1 : ℕ) : ℚ) := by
    have : (1 : ℕ) ≤ max (A ∪ B).card 1 := le_max_right _ _
    exact_mod_cast lt_of_lt_of_le one_pos this
  rw [div_le_one hden]
  have hsub : (A ∩ B).card ≤ (A ∪ B).card :=
    Finset.card_le_card (le_trans Finset.inter_subset_left Finset.subset_union_left)
  have : (A ∩ B).card ≤ max (A ∪ B).card 1 := le_trans hsub (le_max_left _ _)
  exact_mod_cast this

lemma jac_comm (A B : Finset String) : jac A B = jac B A := by
  unfold jac
  rw [Finset.inter_comm, Finset.union_comm]

lemma usageSim_nonneg (g t : Synset) : 0 ≤ usageSim g t := by
  unfold usageSim
  split
  · exact jac_nonneg _ _
  · norm_num

lemma usageSim_le_one (g t : Synset) : usageSim g t ≤ 1 := by
  unfold usageSim
  split
  · exact jac_le_one _ _
  · norm_num

lemma usageSim_comm (g t : Synset) : usageSim g t = usageSim t g := by
  unfold usageSim
  by_cases h1 : exTokens g = ∅ <;> by_cases h2 : exTokens t = ∅ <;>
    simp [h1, h2, jac_comm (exTokens g)]

lemma getD_bounds {f : Synset → Synset → Option ℚ}
    (hf : ∀ s t q, f s t = some q → 0 ≤ q ∧ q ≤ 1) (s t : Synset) :
    0 ≤ (f s t).getD 0 ∧ (f s t).getD 0 ≤ 1 := by
  cases h : f s t with
  | none => simp
  | some q => simpa using hf s t q h

lemma graphScore_range (L : Lexicon) (g t : Synset) :
    0 ≤ graphScore L g t ∧ graphScore L g t ≤ 1000 := by
  unfold graphScore
  obtain ⟨p0, p1⟩ := getD_bounds L.pathSim_bounds g t
  obtain ⟨w0, w1⟩ := getD_bounds L.wupSim_bounds g t
  have d0 := jac_nonneg (defTokens g) (defTokens t)
  have d1 := jac_le_one (defTokens g) (defTokens t)
  have u0 := usageSim_nonneg g t
  have u1 := usageSim_le_one g t
  apply pyInt_range
  · nlinarith
  · nlinarith

lemma fallback_range (x y : String) :
    0 ≤ 1000 - pyInt (seqRatioQ x y * 1000) ∧
    1000 - pyInt (seqRatioQ x y * 1000) ≤ 1000 := by
  have r0 := seqRatioQ_nonneg x y
  have r1 := seqRatioQ_le_one x y
  have h0 : 0 ≤ seqRatioQ x y * 1000 := by nlinarith
  have h1 : seqRatioQ x y * 1000 ≤ 1000 := by nlinarith
  obtain ⟨b0, b1⟩ := pyInt_range h0 h1
  omega

/-! ### Properties of the deduplication pass and the hint segments. -/

lemma dedupAux_subset : ∀ (seen : List String) (l : List (String × String)) (x),
    x ∈ dedupAux seen l → x ∈ l := by
  intro seen l
  induction l generalizing seen with
  | nil => intro x hx; simp [dedupAux] at hx
  | cons h t ih =>
    intro x hx
    simp only [dedupAux] at hx
    split at hx
    · exact List.mem_cons_of_mem _ (ih seen x hx)
    · rcases List.mem_cons.mp hx with rfl | hx2
      · exact List.mem_cons_self _ _
      · exact List.mem_cons_of_mem _ (ih _ x hx2)

lemma dedupAux_not_seen : ∀ (seen : List String) (l : List (String × String)) (x),
    x ∈ dedupAux seen l → x.2 ∉ seen := by
  intro seen l
  induction l generalizing seen with
  | nil => intro x hx; simp [dedupAux] at hx
  | cons h t ih =>
    intro x hx
    simp only [dedupAux] at hx
    split at hx <;> rename_i hc
    · exact ih seen x hx
    · rcases List.mem_cons.mp hx with rfl | hx2
      · exact hc
      · intro hmem
        exact ih _ x hx2 (List.mem_cons_of_mem _ hmem)

lemma dedupAux_first : ∀ (seen : List String) (l : List (String × String)) (x),
    x ∈ dedupAux seen l → l.find? (fun y => y.2 == x.2) = some x := by
  intro seen l
  induction l generalizing seen with
  | nil => intro x hx; simp [dedupAux] at hx
  | cons h t ih =>
    intro x hx
    simp only [dedupAux] at hx
    split at hx <;> rename_i hc
    · have hne : x.2 ≠ h.2 := fun he => (dedupAux_not_seen seen t x hx) (he ▸ hc)
      rw [List.find?_cons_of_neg _ (by simpa using hne.symm)]
      exact ih seen x hx
    · rcases List.mem_cons.mp hx with rfl | hx2
      · rw [List.find?_cons_of_pos _ (by simp)]
      · have hne : x.2 ≠ h.2 := fun he =>
          (dedupAux_not_seen _ t x hx2) (by rw [he]; exact List.mem_cons_self _ _)
        rw [List.find?_cons_of_neg _ (by simpa using hne.symm)]
        exact ih _ x hx2

lemma dedupAux_nodup : ∀ (seen : List String) (l : List (String × String)),
    ((dedupAux seen l).map Prod.snd).Nodup := by
  intro seen l
  induction l generalizing seen with
  | nil => simp [dedupAux]
  | cons h t ih =>
    simp only [dedupAux]
    split
    · exact ih seen
    · simp only [List.map_cons, List.nodup_cons]
      refine ⟨?_, ih _⟩
      intro hmem
      obtain ⟨x, hx, hxe⟩ := List.mem_map.mp hmem
      exact (dedupAux_not_seen _ _ _ hx) (hxe ▸ List.mem_cons_self _ _)

lemma iteSomeIff {α : Type} {c : Prop} [Decidable c] {x y : α} :
    (if c then some x else none) = some y ↔ c ∧ x = y := by
  split <;> rename_i h <;> simp [h]

lemma synHints_spec {wf : String → ℕ} {w : String} {ps : Synset} {h : String × String}
    (hm : h ∈ synHints wf w ps) :
    ∃ s, s ∈ ps.lemmas ∧ s ≠ w ∧ 2 < s.length ∧ get_word_complexity wf s < 7 / 10 ∧
      h = ("synonym", "Similar word: " ++ s) := by
  simp only [synHints, List.mem_filterMap] at hm
  obtain ⟨s, hs, he⟩ := hm
  rw [iteSomeIff] at he
  exact ⟨s, hs, he.1.1, he.1.2.1, he.1.2.2, he.2.symm⟩

lemma catHints_spec {w : String} {ps : Synset} {h : String × String}
    (hm : h ∈ catHints w ps) :
    ∃ s, s ≠ w ∧ 2 < s.length ∧ h = ("category", "Type of: " ++ s) := by
  simp only [catHints, List.mem_flatMap, List.mem_filterMap] at hm
  obtain ⟨path, hp, hyp, hh, s, hsl, he⟩ := hm
  rw [iteSomeIff] at he
  exact ⟨s, he.1.1, he.1.2, he.2.symm⟩

lemma defHints_spec {R : Rand} {ps : Synset} {h : String × String}
    (hm : h ∈ defHints R ps) : h.1 = "definition" := by
  simp only [defHints] at hm
  split at hm
  · split at hm
    · rcases List.mem_singleton.mp hm with rfl; rfl
    · simp at hm
  · simp at hm

lemma usageHints_spec {R : Rand} {w : String} {ps : Synset} {h : String × String}
    (hm : h ∈ usageHints R w ps) : h.1 = "usage" := by
  simp only [usageHints] at hm
  split at hm
  · simp at hm
  · rcases List.mem_singleton.mp hm with rfl; rfl

lemma domHints_spec {ps : Synset} {h : String × String}
    (hm : h ∈ domHints ps) : h.1 = "domain" := by
  simp only [domHints, List.mem_map] at hm
  obtain ⟨d, _, rfl⟩ := hm
  rfl

lemma rawHints_spec {L : Lexicon} {R : Rand} {wf : String → ℕ} {w : String}
    {h : String × String} (hm : h ∈ rawHints L R wf w) :
    (∃ s, s ≠ w ∧ 2 < s.length ∧ get_word_complexity wf s < 7 / 10 ∧
      h = ("synonym", "Similar word: " ++ s)) ∨
    (∃ s, s ≠ w ∧ 2 < s.length ∧ h = ("category", "Type of: " ++ s)) ∨
    h.1 = "definition" ∨ h.1 = "usage" ∨ h.1 = "domain" := by
  unfold rawHints at hm
  split at hm
  · simp at hm
  · simp only [List.append_assoc, List.mem_append] at hm
    rcases hm with hm | hm | hm | hm | hm
    · obtain ⟨s, _, h1, h2, h3, h4⟩ := synHints_spec hm
      exact Or.inl ⟨s, h1, h2, h3, h4⟩
    · obtain ⟨s, h1, h2, h3⟩ := catHints_spec hm
      exact Or.inr (Or.inl ⟨s, h1, h2, h3⟩)
    · exact Or.inr (Or.inr (Or.inl (defHints_spec hm)))
    · exact Or.inr (Or.inr (Or.inr (Or.inl (usageHints_spec hm))))
    · exact Or.inr (Or.inr (Or.inr (Or.inr (domHints_spec hm))))

lemma mem_hints_raw {L : Lexicon} {R : Rand} {wf : String → ℕ} {w : String}
    {h : String × String} (hm : h ∈ get_enhanced_semantic_hints L R wf w) :
    h ∈ rawHints L R wf w := by
  unfold get_enhanced_semantic_hints at hm
  exact dedupAux_subset _ _ _ ((R.shuffle_perm _).mem_iff.mp hm)

lemma strAppendCancel {p a b : String} (h : p ++ a = p ++ b) : a = b := by
  cases p with | mk pd =>
  cases a with | mk ad =>
  cases b with | mk bd =>
  have hd : pd ++ ad = pd ++ bd := congrArg String.data h
  have := List.append_cancel_left hd
  rw [this]

/-! ### Concrete evaluations. -/

lemma synHints_dog :
    synHints freqK "dog" Sdog = [("synonym", "Similar word: domestic_dog")] := by
  have l2 : ("domestic_dog" : String).length = 12 := by decide
  have l3 : ("canis_familiaris" : String).length = 16 := by decide
  have h2 : get_word_complexity freqK "domestic_dog" < 7 / 10 := by
    norm_num [get_word_complexity, freqK, l2]
  have h3 : ¬ get_word_complexity freqK "canis_familiaris" < 7 / 10 := by
    norm_num [get_word_complexity, freqK, l3]
  have e1 : ¬ (("dog" : String) ≠ "dog" ∧ 2 < ("dog" : String).length ∧
      get_word_complexity freqK "dog" < 7 / 10) := by
    intro hc
    exact hc.1 rfl
  have e2 : ("domestic_dog" : String) ≠ "dog" ∧ 2 < ("domestic_dog" : String).length ∧
      get_word_complexity freqK "domestic_dog" < 7 / 10 := ⟨by decide, by decide, h2⟩
  have e3 : ¬ (("canis_familiaris" : String) ≠ "dog" ∧
      2 < ("canis_familiaris" : String).length ∧
      get_word_complexity freqK "canis_familiaris" < 7 / 10) := by
    intro hc
    exact h3 hc.2.2
  simp only [synHints, Sdog, List.filterMap_cons, List.filterMap_nil,
    if_neg e1, if_pos e2, if_neg e3]
  decide

lemma hints_dog :
    get_enhanced_semantic_hints dogLex idR freqK "dog" =
      [("synonym", "Similar word: domestic_dog"),
       ("category", "Type of: animal"), ("category", "Type of: beast"),
       ("category", "Type of: canine"), ("category", "Type of: domestic_dog"),
       ("definition", "Definition contains: domesticated carnivorous mammal"),
       ("usage", "Used in: the ___ barked"),
       ("domain", "Related to: zoology")] := by
  have hs : dogLex.synsets "dog" = [Sdog] := by decide
  have hraw : rawHints dogLex idR freqK "dog" =
      [("synonym", "Similar word: domestic_dog"),
       ("category", "Type of: animal"), ("category", "Type of: beast"),
       ("category", "Type of: canine"), ("category", "Type of: domestic_dog"),
       ("definition", "Definition contains: domesticated carnivorous mammal"),
       ("usage", "Used in: the ___ barked"),
       ("domain", "Related to: zoology")] := by
    simp only [rawHints, hs, synHints_dog]
    decide
  simp only [get_enhanced_semantic_hints, hraw]
  decide

lemma score_entity_self : calculate_enhanced_similarity entLex "entity" "entity" = 200 := by
  have h1 : entLex.synsets (pyLower "entity") = [Sent] := by decide
  simp only [calculate_enhanced_similarity, h1]
  have h2 : (defTokens Sent ∩ defTokens Sent).card = 4 := by decide
  have h3 : (defTokens Sent ∪ defTokens Sent).card = 4 := by decide
  have h4 : exTokens Sent = ∅ := by decide
  simp only [graphScore, jac, usageSim, h2, h3, h4, discreteSims, entLex,
    if_pos rfl, Option.getD_some]
  norm_num [pyInt]

lemma score_fwd : calculate_enhanced_similarity emptyLex "abzrcd" "cdabwr" = 500 := by
  have hl1 : pyLower "abzrcd" = "abzrcd" := by decide
  have hl2 : pyLower "cdabwr" = "cdabwr" := by decide
  have hm : matchSum 12 "abzrcd".data "cdabwr".data = 3 := by decide
  have hr : seqRatioQ "abzrcd" "cdabwr" = 1 / 2 := by
    simp only [seqRatioQ,
      show "abzrcd".data.length + "cdabwr".data.length = 12 from by decide, hm]
    norm_num
  show 1000 - pyInt (seqRatioQ (pyLower "abzrcd") (pyLower "cdabwr") * 1000) = 500
  rw [hl1, hl2, hr]
  norm_num [pyInt]

lemma score_bwd : calculate_enhanced_similarity emptyLex "cdabwr" "abzrcd" = 667 := by
  have hl1 : pyLower "abzrcd" = "abzrcd" := by decide
  have hl2 : pyLower "cdabwr" = "cdabwr" := by decide
  have hm : matchSum 12 "cdabwr".data "abzrcd".data = 2 := by decide
  have hr : seqRatioQ "cdabwr" "abzrcd" = 1 / 3 := by
    simp only [seqRatioQ,
      show "cdabwr".data.length + "abzrcd".data.length = 12 from by decide, hm]
    norm_num
  show 1000 - pyInt (seqRatioQ (pyLower "cdabwr") (pyLower "abzrcd") * 1000) = 667
  rw [hl1, hl2, hr]
  norm_num [pyInt]

/-! ### The claims. -/

/-- Claim C1, code bug: the claim demands score 0 exactly on case-insensitive
identity, but when the primary sense of the word carries no usage examples
the usage overlap defaults to 0, so the blended similarity caps at 0.8 and
the identical guess scores 200, not 0: the success branch of the game never
fires.  Evaluated here on the word entity, whose primary WordNet sense has
no example sentences. -/
theorem c1_exact_guess_nonzero :
    calculate_enhanced_similarity entLex "entity" "entity" = 200 ∧
    calculate_enhanced_similarity entLex "entity" "entity" ≠ 0 :=
  ⟨score_entity_self, by rw [score_entity_self]; decide⟩

/-- Claim C2, counterexample: on a word with a fully populated sense the
generated hints carry only the kinds synonym, category, definition, usage
and domain; no hint of a hyponym or holonym kind is ever produced, against
the claim that hyponym- and holonym-derived hints are included. -/
theorem c2_cex :
    dogLex.synsets "dog" ≠ [] ∧
    (get_enhanced_semantic_hints dogLex idR freqK "dog").map Prod.fst =
      ["synonym", "category", "category", "category", "category",
       "definition", "usage", "domain"] ∧
    "hyponym" ∉ (get_enhanced_semantic_hints dogLex idR freqK "dog").map Prod.fst ∧
    "holonym" ∉ (get_enhanced_semantic_hints dogLex idR freqK "dog").map Prod.fst := by
  refine ⟨by decide, ?_, ?_, ?_⟩ <;> rw [hints_dog] <;> decide

/-- Claim C2, amended: for every lexicon, random source, frequency table and
word, every generated hint has kind synonym, category, definition, usage or
domain; the generator draws from the primary sense lemmas, the last three
levels of each hypernym path, the definition gloss, the examples and the
topic domains, and never from hyponyms or holonyms. -/
theorem c2_hint_kinds (L : Lexicon) (R : Rand) (wf : String → ℕ) (w : String) :
    ∀ h ∈ get_enhanced_semantic_hints L R wf w,
      h.1 = "synonym" ∨ h.1 = "category" ∨ h.1 = "definition" ∨
      h.1 = "usage" ∨ h.1 = "domain" := by
  intro h hm
  rcases rawHints_spec (mem_hints_raw hm) with ⟨s, _, _, _, he⟩ | ⟨s, _, _, he⟩ | hk | hk | hk
  · left; rw [he]
  · right; left; rw [he]
  · right; right; left; exact hk
  · right; right; right; left; exact hk
  · right; right; right; right; exact hk

/-- Witness for the amended claim C2, on a concrete hint of the dog lexicon. -/
theorem c2_w :
    (("usage", "Used in: the ___ barked") : String × String).1 = "synonym" ∨
    (("usage", "Used in: the ___ barked") : String × String).1 = "category" ∨
    (("usage", "Used in: the ___ barked") : String × String).1 = "definition" ∨
    (("usage", "Used in: the ___ barked") : String × String).1 = "usage" ∨
    (("usage", "Used in: the ___ barked") : String × String).1 = "domain" :=
  c2_hint_kinds dogLex idR freqK "dog" ("usage", "Used in: the ___ barked")
    (by rw [hints_dog]; decide)

/-- Claim C3, counterexample: when the word source is unreachable, the
requests call raises and fetch_random_noun has no handler, so the exception
propagates instead of the claimed None return. -/
theorem c3_cex :
    fetch_random_noun idR (Except.error ()) = Except.error () ∧
    fetch_random_noun idR (Except.error ()) ≠ Except.ok none :=
  ⟨rfl, by simp [fetch_random_noun]⟩

/-- Claim C3, amended: on a response, fetch_random_noun returns None when the
status is not 200 or no alphabetic candidate remains, and on success returns
one of the alphabetic words of the response; but an exception raised by the
request itself propagates to the caller. -/
theorem c3_fetch (R : Rand) (status : Nat) (words : List String) :
    ((status ≠ 200 ∨ words.filter pyIsAlpha = []) →
      fetch_random_noun R (Except.ok (status, words)) = Except.ok none) ∧
    (∀ w, fetch_random_noun R (Except.ok (status, words)) = Except.ok (some w) →
      w ∈ words ∧ pyIsAlpha w = true) := by
  constructor
  · intro h
    by_cases hs : status = 200
    · rcases h with h | h
      · exact absurd hs h
      · simp [fetch_random_noun, hs, h]
    · simp [fetch_random_noun, hs]
  · intro w hw
    simp only [fetch_random_noun] at hw
    by_cases hs : status = 200
    · rw [if_pos hs] at hw
      by_cases hne : words.filter pyIsAlpha = []
      · rw [if_neg (by simp [hne])] at hw
        simp at hw
      · rw [if_pos hne] at hw
        simp only [Except.ok.injEq, Option.some.injEq] at hw
        have hmem := R.choice_mem _ hne
        rw [hw] at hmem
        exact ⟨(List.mem_filter.mp hmem).1, (List.mem_filter.mp hmem).2⟩
    · rw [if_neg hs] at hw
      simp at hw

/-- Witness for the amended claim C3: a 404 response yields None, and a
successful fetch returns an alphabetic word of the response. -/
theorem c3_w :
    fetch_random_noun idR (Except.ok (404, [])) = Except.ok none ∧
    ("dog" ∈ ["dog"] ∧ pyIsAlpha "dog" = true) :=
  ⟨(c3_fetch idR 404 []).1 (Or.inl (by decide)),
   (c3_fetch idR 200 ["dog"]).2 "dog" rfl⟩

/-- Claim C4: the feedback tiering is a pure total function of the distance
matching the table at every boundary, and a score of 0 on an accepted guess
is exactly what ends the game in success. -/
theorem c4_tiering :
    (∀ d : ℤ, 0 ≤ d →
      ((tierOf d = Tier.exactMatch ↔ d = 0) ∧
       (tierOf d = Tier.almostThere ↔ 0 < d ∧ d ≤ 20) ∧
       (tierOf d = Tier.veryClose ↔ 20 < d ∧ d ≤ 200) ∧
       (tierOf d = Tier.warmer ↔ 200 < d ∧ d ≤ 500) ∧
       (tierOf d = Tier.notClose ↔ 500 < d))) ∧
    (∀ (L : Lexicon) (st : GameState) (g : String),
      st.gameOver = false →
      (st.previousGuesses.map Prod.fst).contains (pyLower g) = false →
      ((submitGuess L st g).gameOver = true ↔
        calculate_enhanced_similarity L g st.target = 0)) := by
  constructor
  · intro d hd
    unfold tierOf
    split_ifs with h1 h2 h3 h4 <;> refine ⟨?_, ?_, ?_, ?_, ?_⟩ <;> simp <;> omega
  · intro L st g hgo hdup
    unfold submitGuess
    rw [hdup, hgo]
    simp

/-- Witness for claim C4 at distance 0 and at a concrete accepted guess. -/
theorem c4_w :
    (tierOf 0 = Tier.exactMatch ↔ (0 : ℤ) = 0) ∧
    ((submitGuess entLex gs0 "entity").gameOver = true ↔
      calculate_enhanced_similarity entLex "entity" gs0.target = 0) :=
  ⟨(c4_tiering.1 0 le_rfl).1, c4_tiering.2 entLex gs0 "entity" rfl (by decide)⟩

/-- Claim C5: for every lexicon and every pair of words the scorer returns
an integer in [0, 1000], on the graph path as well as on the
string-similarity fallback path. -/
theorem c5_score_in_range (L : Lexicon) (a b : String) :
    0 ≤ calculate_enhanced_similarity L a b ∧
    calculate_enhanced_similarity L a b ≤ 1000 := by
  unfold calculate_enhanced_similarity
  rcases hg : L.synsets (pyLower a) with _ | ⟨g, gs⟩ <;>
    rcases ht : L.synsets (pyLower b) with _ | ⟨t, ts⟩
  · exact fallback_range _ _
  · exact fallback_range _ _
  · exact fallback_range _ _
  · exact graphScore_range L g t

/-- Claim C6: whenever either word has no sense in the lexical graph, the
scorer equals the string-similarity fallback, 1000 minus the scaled matcher
ratio of the lowercased words; being a total function it never raises. -/
theorem c6_fallback (L : Lexicon) (a b : String)
    (h : L.synsets (pyLower a) = [] ∨ L.synsets (pyLower b) = []) :
    calculate_enhanced_similarity L a b =
      1000 - pyInt (seqRatioQ (pyLower a) (pyLower b) * 1000) := by
  unfold calculate_enhanced_similarity
  rcases hg : L.synsets (pyLower a) with _ | ⟨g, gs⟩ <;>
    rcases ht : L.synsets (pyLower b) with _ | ⟨t, ts⟩
  · rfl
  · rfl
  · rfl
  · rw [hg, ht] at h
    rcases h with h | h <;> exact absurd h (List.cons_ne_nil _ _)

/-- Witness for claim C6 on two words absent from the lexicon. -/
theorem c6_w :
    calculate_enhanced_similarity emptyLex "abc" "abd" =
      1000 - pyInt (seqRatioQ (pyLower "abc") (pyLower "abd") * 1000) :=
  c6_fallback emptyLex "abc" "abd" (Or.inl rfl)

/-- Claim C7: the hint list has pairwise distinct rendered texts, each output
entry is the first raw hint carrying its text (first-seen kind kept), the
word itself never appears as a synonym or category candidate, and every
synonym or category candidate has length above 2. -/
theorem c7_hints (L : Lexicon) (R : Rand) (wf : String → ℕ) (w : String) :
    ((get_enhanced_semantic_hints L R wf w).map Prod.snd).Nodup ∧
    (∀ h ∈ get_enhanced_semantic_hints L R wf w,
      (rawHints L R wf w).find? (fun y => y.2 == h.2) = some h) ∧
    (∀ s, ("synonym", "Similar word: " ++ s) ∈ get_enhanced_semantic_hints L R wf w →
      s ≠ w ∧ 2 < s.length) ∧
    (∀ s, ("category", "Type of: " ++ s) ∈ get_enhanced_semantic_hints L R wf w →
      s ≠ w ∧ 2 < s.length) := by
  have hperm := R.shuffle_perm (dedupAux [] (rawHints L R wf w))
  refine ⟨?_, ?_, ?_, ?_⟩
  · exact ((hperm.map Prod.snd).nodup_iff).mpr (dedupAux_nodup [] _)
  · intro h hm
    exact dedupAux_first [] _ h (hperm.mem_iff.mp hm)
  · intro s hm
    rcases rawHints_spec (mem_hints_raw hm) with
      ⟨s2, hne, hlen, _, he⟩ | ⟨s2, _, _, he⟩ | hk | hk | hk
    · obtain rfl := strAppendCancel (congrArg Prod.snd he)
      exact ⟨hne, hlen⟩
    · exact absurd (show ("synonym" : String) = "category" from congrArg Prod.fst he)
        (by decide)
    · exact absurd (show ("synonym" : String) = "definition" from hk) (by decide)
    · exact absurd (show ("synonym" : String) = "usage" from hk) (by decide)
    · exact absurd (show ("synonym" : String) = "domain" from hk) (by decide)
  · intro s hm
    rcases rawHints_spec (mem_hints_raw hm) with
      ⟨s2, _, _, _, he⟩ | ⟨s2, hne, hlen, he⟩ | hk | hk | hk
    · exact absurd (show ("category" : String) = "synonym" from congrArg Prod.fst he)
        (by decide)
    · obtain rfl := strAppendCancel (congrArg Prod.snd he)
      exact ⟨hne, hlen⟩
    · exact absurd (show ("category" : String) = "definition" from hk) (by decide)
    · exact absurd (show ("category" : String) = "usage" from hk) (by decide)
    · exact absurd (show ("category" : String) = "domain" from hk) (by decide)

/-- Witness for claim C7: the dog hint list has distinct texts, and its
synonym candidate differs from the word and is longer than 2. -/
theorem c7_w :
    ((get_enhanced_semantic_hints dogLex idR freqK "dog").map Prod.snd).Nodup ∧
    ("domestic_dog" ≠ "dog" ∧ 2 < ("domestic_dog" : String).length) :=
  ⟨(c7_hints dogLex idR freqK "dog").1,
   (c7_hints dogLex idR freqK "dog").2.2.1 "domestic_dog" (by rw [hints_dog]; decide)⟩

/-- Claim C9: a lemma of the primary sense becomes a synonym hint only when
its Brown-corpus complexity is strictly below 0.7, so a candidate at or
above that threshold is silently omitted even when it differs from the word
and is longer than 2. -/
theorem c9_syn_complexity (L : Lexicon) (R : Rand) (wf : String → ℕ) (w : String) :
    (∀ s, ("synonym", "Similar word: " ++ s) ∈ get_enhanced_semantic_hints L R wf w →
      get_word_complexity wf s < 7 / 10) ∧
    (∀ s, ¬ get_word_complexity wf s < 7 / 10 →
      ("synonym", "Similar word: " ++ s) ∉ get_enhanced_semantic_hints L R wf w) := by
  have key : ∀ s, ("synonym", "Similar word: " ++ s) ∈ get_enhanced_semantic_hints L R wf w →
      get_word_complexity wf s < 7 / 10 := by
    intro s hm
    rcases rawHints_spec (mem_hints_raw hm) with
      ⟨s2, _, _, hc, he⟩ | ⟨s2, _, _, he⟩ | hk | hk | hk
    · obtain rfl := strAppendCancel (congrArg Prod.snd he)
      exact hc
    · exact absurd (show ("synonym" : String) = "category" from congrArg Prod.fst he)
        (by decide)
    · exact absurd (show ("synonym" : String) = "definition" from hk) (by decide)
    · exact absurd (show ("synonym" : String) = "usage" from hk) (by decide)
    · exact absurd (show ("synonym" : String) = "domain" from hk) (by decide)
  exact ⟨key, fun s hnc hm => hnc (key s hm)⟩

/-- Witness for claim C9: canis_familiaris is a lemma of the primary dog
sense, differs from the word and is longer than 2, yet its complexity 0.8 is
not below 0.7, so no synonym hint for it appears. -/
theorem c9_w :
    ("synonym", "Similar word: " ++ "canis_familiaris") ∉
      get_enhanced_semantic_hints dogLex idR freqK "dog" :=
  (c9_syn_complexity dogLex idR freqK "dog").2 "canis_familiaris" (by
    have l3 : ("canis_familiaris" : String).length = 16 := by decide
    norm_num [get_word_complexity, freqK, l3])

/-- Claim C8: a guess whose lowercased form is already a key of the stored
guess collection leaves the whole session state unchanged: no score is
computed, no key is added, no stored score or count changes. -/
theorem c8_dup (L : Lexicon) (st : GameState) (g : String)
    (h : (st.previousGuesses.map Prod.fst).contains (pyLower g) = true) :
    submitGuess L st g = st := by
  unfold submitGuess
  rw [h]
  simp

/-- Witness for claim C8: resubmitting Dog over a stored dog changes nothing. -/
theorem c8_w : submitGuess entLex st1 "Dog" = st1 :=
  c8_dup entLex st1 "Dog" (by decide)

/-- Claim C10, counterexample: the scorer is not symmetric.  On two words
absent from the lexicon the difflib fallback is order-dependent: the pair
abzrcd / cdabwr scores 500 one way and 667 the other. -/
theorem c10_cex :
    calculate_enhanced_similarity emptyLex "abzrcd" "cdabwr" = 500 ∧
    calculate_enhanced_similarity emptyLex "cdabwr" "abzrcd" = 667 ∧
    calculate_enhanced_similarity emptyLex "abzrcd" "cdabwr" ≠
      calculate_enhanced_similarity emptyLex "cdabwr" "abzrcd" :=
  ⟨score_fwd, score_bwd, by rw [score_fwd, score_bwd]; decide⟩

/-- Claim C10, amended: on the graph path the scorer is symmetric whenever
the path and Wu-Palmer similarities are symmetric on the two primary senses
(as they are in WordNet); the asymmetry lies only in the fallback matcher. -/
theorem c10_graph_symm (L : Lexicon) (a b : String) (g t : Synset)
    (gs ts : List Synset)
    (hga : L.synsets (pyLower a) = g :: gs) (htb : L.synsets (pyLower b) = t :: ts)
    (hp : L.pathSim g t = L.pathSim t g) (hw : L.wupSim g t = L.wupSim t g) :
    calculate_enhanced_similarity L a b = calculate_enhanced_similarity L b a := by
  unfold calculate_enhanced_similarity
  rw [hga, htb]
  show graphScore L g t = graphScore L t g
  unfold graphScore
  rw [hp, hw, jac_comm, usageSim_comm]

/-- Witness for the amended claim C10 on the words dog and cat. -/
theorem c10_w :
    calculate_enhanced_similarity dogLex "dog" "cat" =
      calculate_enhanced_similarity dogLex "cat" "dog" :=
  c10_graph_symm dogLex "dog" "cat" Sdog Scat [] []
    (by decide) (by decide) (by decide) (by decide)

end WordGuess
